import Mathlib

/-!
Shallow embedding of the `storage` package of mozilla-services/pushgo
(`src/simplepush.go`, the memcached adapter `EmceeStore`) together with the
connection-pool run loop, and proofs about the store operations.

Modelling conventions:
* Go byte slices (`[]byte`) are `List Nat`, each entry a byte value.
* Machine integers: `uint64` values are `Nat` produced by `toUint64`
  (reduction mod 2 ^ 64 of the `int64` argument), `int64` and `int8` values
  are `Int`.
* The memcached backing store is a key/value map from string keys to decoded
  Gob blobs (`MCValue`).  The network and the memcached nodes are reliable in
  this model: a `Get` fails only with a missing-key error or a Gob decoding
  mismatch, and `Set` / `Delete` always succeed.  TTL-driven expiry of
  records is not modelled (no claim is about it).
* `time.Now().UTC().Unix()` is an explicit `now : Int` parameter.
* Go runtime panics (out-of-range slice expressions) are modelled explicitly:
  `pareDuplicates` returns `Except Unit _` with `.error ()` for a panic, and
  store operations propagate it as `GoRes.panicked`.
* For `Unregister`, the bounded retry loop is parameterised by a failure
  schedule `ff : Nat → Bool` injecting a (non-missing) fetch failure at
  attempt `x` when `ff x = true`; the loop also returns the number of
  attempts it made, as an observable for the specification.
-/

namespace Pushgo

/-- Channel record status constants (`DELETED = iota; LIVE; REGISTERED`). -/
def DELETED : Int := 0

/-- Channel record status constant `LIVE`. -/
def LIVE : Int := 1

/-- Channel record status constant `REGISTERED`. -/
def REGISTERED : Int := 2

/-- `cr` is a channel record: `{S int8, V uint64, L int64}`. -/
structure cr where
  S : Int
  V : Nat
  L : Int
deriving DecidableEq, Repr

/-- `ia` is a list of decoded channel IDs (`[][]byte`). -/
abbrev ia := List (List Nat)

/-- The `Update` structure returned by `FetchAll`: a hex channel ID together
with a `uint64` version (fields as used at the `FetchAll` call site). -/
structure Update where
  ChannelID : String
  Version : Nat
deriving DecidableEq, Repr

/-- The value of `uint64(v)` for a Go `int64` value `v`: reduction modulo
2 ^ 64 (two-complement reinterpretation). -/
def toUint64 (v : Int) : Nat := (v % (2 ^ 64 : Int)).toNat

/-- The range of a Go `int64` value. -/
def Int64Range (v : Int) : Prop := -(2 ^ 63) ≤ v ∧ v < 2 ^ 63

/-- The literal string "NOT FOUND" that `isMissing` searches in. -/
def notFoundMsg : List Char := ['N', 'O', 'T', ' ', 'F', 'O', 'U', 'N', 'D']

/-- Go `strings.Contains(s, substr)`: whether `substr` occurs as a contiguous
substring of `s`. -/
def goContains (s sub : List Char) : Bool := decide (sub <:+: s)

/-- The adapter function `isMissing`, at the level of the error message:
`strings.Contains("NOT FOUND", err.Error())`.  Note the argument order of the
source: the error message is searched inside the literal "NOT FOUND". -/
def isMissingMsg (msg : List Char) : Bool := goContains notFoundMsg msg

/-- Errors surfaced by the modelled operations.  `mcMissing` is the memcached
missing-key error, `mcDecode` a Gob decoding mismatch, `netFail` an injected
network failure; the remaining constructors model the `sperrors` package
values used by the adapter. -/
inductive SPError where
  | mcMissing
  | mcDecode
  | netFail
  | noChannel
  | invalidPrimaryKey
  | invalidChannel
  | missingData
deriving DecidableEq, Repr

/-- Error messages.  Only the first three can ever reach an `isMissing`
check; the `sperrors` messages are modelled (that package is not in `src/`)
and none of them is a substring of "NOT FOUND". -/
def SPError.msg : SPError → List Char
  | .mcMissing => notFoundMsg
  | .mcDecode => "gob: type mismatch in decode".toList
  | .netFail => "connection failure".toList
  | .noChannel => "No channel ID specified".toList
  | .invalidPrimaryKey => "Invalid Primary Key Value".toList
  | .invalidChannel => "Invalid Channel ID Specified".toList
  | .missingData => "Missing required fields for storage".toList

/-- `isMissing` on a modelled error value. -/
def isMissing (e : SPError) : Bool := isMissingMsg e.msg

/-- A decoded value stored in memcached: a channel record blob, a channel ID
array blob, or a plain string. -/
inductive MCValue where
  | record (r : cr)
  | idArray (a : ia)
  | str (s : String)
deriving DecidableEq, Repr

/-- The memcached contents: an association list from keys to values, most
recent binding first. -/
abbrev MCState := List (String × MCValue)

/-- Look a key up in the store. -/
def mcGet (st : MCState) (key : String) : Option MCValue :=
  match st.find? (fun kv => kv.1 == key) with
  | some kv => some kv.2
  | none => none

/-- Write a key (`client.Set`); the new binding shadows any previous one. -/
def mcSet (st : MCState) (key : String) (v : MCValue) : MCState :=
  (key, v) :: st

/-- The standard Base64 alphabet. -/
def b64Alphabet : List Char :=
  "ABCDEFGHIJKLMNOPQRSTUVWXYZabcdefghijklmnopqrstuvwxyz0123456789+/".toList

/-- Digit of the standard Base64 alphabet. -/
def b64Char (n : Nat) : Char := b64Alphabet.getD n '?'

/-- Standard Base64 encoding with padding (`base64.StdEncoding`), grouping
the input bytes in threes. -/
def b64Encode : List Nat → List Char
  | [] => []
  | [a] => [b64Char (a / 4), b64Char (a % 4 * 16), '=', '=']
  | [a, b] => [b64Char (a / 4), b64Char (a % 4 * 16 + b / 16), b64Char (b % 16 * 4), '=']
  | a :: b :: c :: rest =>
    b64Char (a / 4) :: b64Char (a % 4 * 16 + b / 16) ::
      b64Char (b % 16 * 4 + c / 64) :: b64Char (c % 64) :: b64Encode rest

/-- `encodeKey`: Base64 rendering of a binary key for storage in memcached. -/
def encodeKey (key : List Nat) : String := String.mk (b64Encode key)

/-- Lowercase hexadecimal digit. -/
def hexChar (n : Nat) : Char := if n < 10 then Char.ofNat (48 + n) else Char.ofNat (87 + n)

/-- `hex.EncodeToString`, as a character list. -/
def hexEncode : List Nat → List Char
  | [] => []
  | b :: bs => hexChar (b / 16) :: hexChar (b % 16) :: hexEncode bs

/-- `hex.EncodeToString`. -/
def hexStr (b : List Nat) : String := String.mk (hexEncode b)

/-- Go built-in `copy(dst[off:], src)` (for `off ≤ dst.length`): writes
`min (src.length) (dst.length - off)` bytes of `src` into `dst` starting at
`off`, leaving the rest of `dst` unchanged. -/
def goCopy (dst : List Nat) (off : Nat) (src : List Nat) : List Nat :=
  dst.take off ++ src.take (dst.length - off) ++ dst.drop (off + src.length)

/-- `toBinaryKey(uaid, chid)`: 32-byte binary primary key; each half is
right-aligned in its 16-byte field (the Go guards `aoff < 0 → 0` and
`boff < 16 → 16` are the truncated subtraction and the `max`). -/
def toBinaryKey (uaid chid : List Nat) : List Nat :=
  let key := List.replicate 32 0
  let aoff := 16 - uaid.length
  let boff := max 16 (32 - chid.length)
  goCopy (goCopy key aoff uaid) boff chid

/-- `ia.IndexOf`: index of the first occurrence of `val`, `none` standing for
the source value `-1`. -/
def IndexOf (channelIDs : ia) (val : List Nat) : Option Nat :=
  channelIDs.findIdx? (fun v => v == val)

/-- The package function `remove(list, pos)`: a new slice with the element at
`pos` removed, or the slice unchanged when `pos = len(list)` (the `pos < 0`
guard of the source is vacuous for `Nat`). -/
def remove (list : ia) (pos : Nat) : ia :=
  if pos = list.length then list
  else list.take pos ++ list.drop (pos + 1)

/-- Strict lexicographic order on byte slices (`bytes.Compare(a, b) < 0`). -/
def bytesLt : List Nat → List Nat → Bool
  | [], [] => false
  | [], _ :: _ => true
  | _ :: _, [] => false
  | a :: as, b :: bs => decide (a < b) || (a == b && bytesLt as bs)

/-- Total preorder used to sort channel ID arrays. -/
def bytesLe (a b : List Nat) : Bool := !(bytesLt b a)

/-- Insert a channel ID into a sorted list of channel IDs. -/
def insertSorted (x : List Nat) : ia → ia
  | [] => [x]
  | y :: ys => if bytesLe x y then x :: y :: ys else y :: insertSorted x ys

/-- `sort.Sort` on an `ia` with `Less` from `bytes.Compare`, modelled as an
insertion sort (the source guarantees a sorted permutation; the algorithm
itself is the standard library quicksort and is not observable through the
store). -/
def sortIa : ia → ia
  | [] => []
  | x :: xs => insertSorted x (sortIa xs)

/-- The duplicate-paring loop of `fetchAppIDArray`, with Go slice semantics
made explicit.  The range loop iterates `i` over the ORIGINAL length of the
decoded list while `remove` shifts elements of the shared backing array in
place and shrinks the live slice `result` to length `m`; reading `arr[i]`
therefore sees shifted or stale elements, and the slice expression
`result[i+1:]` is out of range — a runtime panic, modelled as `.error ()` —
as soon as `i + 1 > m`.  A removal at `pos < m` moves elements
`pos+1 … m-1` of the backing array one slot left and leaves the tail
unchanged. -/
def pareDuplicates (result : ia) : Except Unit ia :=
  ((List.range result.length).foldlM
    (fun (s : ia × Nat) i =>
      let arr := s.1
      let m := s.2
      let chid := arr.getD i []
      if i + 1 > m then Except.error ()
      else
        match IndexOf ((arr.take m).drop (i + 1)) chid with
        | none => Except.ok (arr, m)
        | some dup =>
          let pos := i + dup
          if pos = m then Except.ok (arr, m)
          else Except.ok
            (arr.take pos ++ (arr.drop (pos + 1)).take (m - 1 - pos) ++ arr.drop (m - 1),
             m - 1))
    (result, result.length)).map (fun s => s.1.take s.2)

/-- `client.Get` decoding the value at `key` into a channel record: a missing
key and a Gob type mismatch both fail. -/
def clientGetRec (st : MCState) (key : String) : Except SPError cr :=
  match mcGet st key with
  | none => .error .mcMissing
  | some (.record r) => .ok r
  | some _ => .error .mcDecode

/-- `client.Get` decoding the value at `key` into a channel ID array. -/
def clientGetIa (st : MCState) (key : String) : Except SPError ia :=
  match mcGet st key with
  | none => .error .mcMissing
  | some (.idArray a) => .ok a
  | some _ => .error .mcDecode

/-- Outcome of a store operation: a normal result, a returned error, or a
propagated runtime panic. -/
inductive GoRes (α : Type) where
  | ok (a : α)
  | err (e : SPError)
  | panicked
deriving DecidableEq, Repr

/-- `EmceeStore.fetchAppIDArray`: subscriptions of a device.  An empty
`uaid` and a missing key both yield an empty list with no error; any other
`Get` failure is returned; a decoded list goes through the duplicate-paring
loop, which panics when the list actually contains duplicates. -/
def EmceeStore.fetchAppIDArray (st : MCState) (uaid : List Nat) : GoRes ia :=
  if uaid.isEmpty then .ok []
  else
    match clientGetIa st (encodeKey uaid) with
    | .error e => if isMissing e then .ok [] else .err e
    | .ok result =>
      match pareDuplicates result with
      | .error _ => .panicked
      | .ok deduped => .ok deduped

/-- `EmceeStore.storeAppIDArray`: sort the array in place and write it at the
Base64 key of the device ID. -/
def EmceeStore.storeAppIDArray (st : MCState) (uaid : List Nat) (arr : ia) :
    Except SPError Unit × MCState :=
  if uaid.isEmpty then (.error .missingData, st)
  else (.ok (), mcSet st (encodeKey uaid) (.idArray (sortIa arr)))

/-- `EmceeStore.fetchRec`: read a channel record.  On a missing key the
source keeps the freshly allocated zero record `new(cr)` and returns it with
a nil error; only non-missing failures are returned. -/
def EmceeStore.fetchRec (st : MCState) (pk : List Nat) : Except SPError cr :=
  if pk.isEmpty then .error .invalidPrimaryKey
  else
    match clientGetRec st (encodeKey pk) with
    | .error e => if isMissing e then .ok { S := 0, V := 0, L := 0 } else .error e
    | .ok r => .ok r

/-- `EmceeStore.storeRec`: stamp `L` with the current time and write the
record (the per-state TTL chosen by the source only affects expiry, which is
not modelled).  A `Set` failure is logged and swallowed, so the function
returns nil except on an empty key (the nil-record guard cannot arise
here). -/
def EmceeStore.storeRec (st : MCState) (now : Int) (pk : List Nat) (r : cr) :
    Except SPError Unit × MCState :=
  if pk.isEmpty then (.error .invalidPrimaryKey, st)
  else (.ok (), mcSet st (encodeKey pk) (.record { r with L := now }))

/-- `EmceeStore.Exists`: whether `fetchAppIDArray` returned a nil error. -/
def EmceeStore.Exists (st : MCState) (uaid : List Nat) : GoRes Bool :=
  match EmceeStore.fetchAppIDArray st uaid with
  | .panicked => .panicked
  | .err _ => .ok false
  | .ok _ => .ok true

/-- `EmceeStore.Register`: add `chid` to the device array when absent, then
store a `REGISTERED` record, upgraded to `LIVE` with `uint64(version)` when
`version ≠ 0` (the `toBinaryKey` error branch of the source is dead code:
that function always returns a nil error). -/
def EmceeStore.Register (st : MCState) (now : Int) (uaid chid : List Nat)
    (version : Int) : GoRes Unit × MCState :=
  if uaid.isEmpty then (.err .noChannel, st)
  else
    match EmceeStore.fetchAppIDArray st uaid with
    | .panicked => (.panicked, st)
    | .err e => (.err e, st)
    | .ok chids =>
      match (match IndexOf chids chid with
             | some _ => (Except.ok (), st)
             | none => EmceeStore.storeAppIDArray st uaid (chids ++ [chid])) with
      | (.error e, st1) => (.err e, st1)
      | (.ok _, st1) =>
        let rec0 : cr := { S := REGISTERED, V := 0, L := now }
        let rec1 : cr :=
          if version = 0 then rec0 else { rec0 with V := toUint64 version, S := LIVE }
        match EmceeStore.storeRec st1 now (toBinaryKey uaid chid) rec1 with
        | (.error e, st2) => (.err e, st2)
        | (.ok _, st2) => (.ok (), st2)

/-- `EmceeStore.Update`: load the record for the primary key; a non-missing
fetch error is returned; with a record whose state is not `DELETED` the
record is overwritten by `{LIVE, uint64(version), now}`; otherwise (no
record found, which the source observes as the zero record with state
`DELETED = 0`, or a record marked `DELETED`) fall through to `Register`. -/
def EmceeStore.Update (st : MCState) (now : Int) (uaid chid : List Nat)
    (version : Int) : GoRes Unit × MCState :=
  if uaid.isEmpty || chid.isEmpty then (.err .invalidPrimaryKey, st)
  else
    let key := toBinaryKey uaid chid
    match EmceeStore.fetchRec st key with
    | .error e =>
      if isMissing e then EmceeStore.Register st now uaid chid version
      else (.err e, st)
    | .ok cRec =>
      if cRec.S ≠ DELETED then
        let newRecord : cr := { S := LIVE, V := toUint64 version, L := now }
        match EmceeStore.storeRec st now key newRecord with
        | (.error e, st1) => (.err e, st1)
        | (.ok _, st1) => (.ok (), st1)
      else EmceeStore.Register st now uaid chid version

/-- Loop body of `FetchAll` for one channel ID: records that fail to load
are skipped; records touched before `since` are skipped; a `LIVE` record is
emitted as an update (a zero stored version is replaced by `uint64(now)`); a
`DELETED` record contributes its channel ID to `expired`; `REGISTERED` and
unknown states are ignored. -/
def fetchAllStep (st : MCState) (now since : Int) (uaid : List Nat)
    (acc : List Pushgo.Update × ia) (chid : List Nat) : List Pushgo.Update × ia :=
  match clientGetRec st (encodeKey (toBinaryKey uaid chid)) with
  | .error _ => acc
  | .ok channel =>
    if channel.L < since then acc
    else if channel.S = LIVE then
      (acc.1 ++
        [{ ChannelID := hexStr chid,
           Version := if channel.V = 0 then toUint64 now else channel.V }],
       acc.2)
    else if channel.S = DELETED then (acc.1, acc.2 ++ [chid])
    else acc

/-- `EmceeStore.FetchAll`: walk the device array in order, applying
`fetchAllStep` to each channel ID. -/
def EmceeStore.FetchAll (st : MCState) (now : Int) (uaid : List Nat)
    (since : Int) : GoRes (List Pushgo.Update × ia) :=
  match EmceeStore.fetchAppIDArray st uaid with
  | .panicked => .panicked
  | .err e => .err e
  | .ok chids => .ok (chids.foldl (fetchAllStep st now since uaid) ([], []))

/-- The bounded best-effort retry loop of `Unregister` (`for x := 0; x < 3`):
fetch the record (an injected failure at attempt `x` when `ff x = true`,
surfacing from `fetchRec` as a non-missing error), and on success mark it
`DELETED`, store it and break — the `storeRec` outcome is ignored.  Returns
the final store contents and the number of loop iterations run; the base
case is reached exactly when all three iterations failed. -/
def EmceeStore.unregLoop (now : Int) (key : List Nat) (ff : Nat → Bool) :
    Nat → Nat → MCState → MCState × Nat
  | _, 0, st => (st, 3)
  | x, fuel + 1, st =>
    match (if ff x then Except.error SPError.netFail else EmceeStore.fetchRec st key) with
    | .error _ => EmceeStore.unregLoop now key ff (x + 1) fuel st
    | .ok channel =>
      ((EmceeStore.storeRec st now key { channel with S := DELETED }).2, x + 1)

/-- `EmceeStore.Unregister`: an unknown channel is an `InvalidChannelError`;
otherwise the channel is removed from the stored device array and the record
is marked `DELETED` best-effort (at most 3 attempts, failures swallowed —
the function returns nil regardless of the loop outcome).  The third
component is the attempt count of the retry loop. -/
def EmceeStore.Unregister (st : MCState) (now : Int) (uaid chid : List Nat)
    (ff : Nat → Bool) : GoRes Unit × MCState × Nat :=
  match EmceeStore.fetchAppIDArray st uaid with
  | .panicked => (.panicked, st, 0)
  | .err e => (.err e, st, 0)
  | .ok chids =>
    match IndexOf chids chid with
    | none => (.err .invalidChannel, st, 0)
    | some pos =>
      match EmceeStore.storeAppIDArray st uaid (remove chids pos) with
      | (.error e, st1) => (.err e, st1, 0)
      | (.ok _, st1) =>
        let r := EmceeStore.unregLoop now (toBinaryKey uaid chid) ff 0 3 st1
        (.ok (), r.1, r.2)

/-- Go `strings.SplitN(s, ".", 2)`: split at the first dot, if any. -/
def splitN2 (s : List Char) : List (List Char) :=
  match s.findIdx? (fun c => c == '.') with
  | none => [s]
  | some i => [s.take i, s.drop (i + 1)]

/-- `EmceeStore.KeyToIDs`: decode a user-readable primary key; `ok` exactly
when the split yields two parts. -/
def EmceeStore.KeyToIDs (key : List Char) : Option (List Char × List Char) :=
  match splitN2 key with
  | [suaid, schid] => some (suaid, schid)
  | _ => none

/-- `EmceeStore.IDsToKey`: `"<uaid>.<chid>"`, defined exactly when both parts
are non-empty. -/
def EmceeStore.IDsToKey (suaid schid : List Char) : Option (List Char) :=
  if suaid.length > 0 && schid.length > 0 then some (suaid ++ '.' :: schid)
  else none

/-- State owned by the pool run loop: the idle connection list (`clients`,
front = least recently queued) and the `capacity` counter of connections
admitted so far. -/
structure PoolState where
  clients : List Nat
  capacity : Nat
deriving DecidableEq, Repr

/-- One communication received by the run loop select: the close signal, a
seeded connection on `s.clients`, a released connection, or an acquisition
request (carrying the outcome of `newClient()` should the loop need to open
a fresh connection). -/
inductive PoolEvent where
  | closeSig
  | newConn (c : Nat)
  | release (c : Nat)
  | acquire (newc : Option Nat)
deriving DecidableEq, Repr

/-- Observable effect of one run-loop step. -/
inductive PoolEffect where
  | looped
  | closedConn (c : Nat)
  | queued (c : Nat)
  | handedOut (c : Nat)
  | saturated
  | fatalErr
  | exited
deriving DecidableEq, Repr

/-- One iteration of the `EmceeStore.run` select loop. -/
def poolStep (maxConns : Nat) (st : PoolState) (ev : PoolEvent) :
    PoolState × PoolEffect :=
  match ev with
  | .closeSig => (st, .exited)
  | .newConn c =>
    if st.capacity ≥ maxConns then (st, .closedConn c)
    else ({ clients := st.clients ++ [c], capacity := st.capacity + 1 }, .queued c)
  | .release c =>
    if st.capacity ≥ maxConns then (st, .closedConn c)
    else ({ st with clients := st.clients ++ [c] }, .queued c)
  | .acquire newc =>
    match st.clients with
    | front :: rest => ({ st with clients := rest }, .handedOut front)
    | [] =>
      if st.capacity < maxConns then
        match newc with
        | none => (st, .fatalErr)
        | some c => ({ st with capacity := st.capacity + 1 }, .handedOut c)
      else (st, .saturated)

/-- Specification-side view: the channel record stored for `(uaid, chid)`,
if the primary key holds one. -/
def recordAt (st : MCState) (uaid chid : List Nat) : Option cr :=
  match mcGet st (encodeKey (toBinaryKey uaid chid)) with
  | some (.record r) => some r
  | _ => none

/-- Specification-side invariant: a `LIVE` record stored at `key` has a
positive version. -/
def liveVersionPositive (st : MCState) (key : String) : Prop :=
  ∀ r, mcGet st key = some (.record r) → r.S = LIVE → 0 < r.V

/-- Specification-side selector: the update that `FetchAll` owes for one
channel ID, if any. -/
def updOf (st : MCState) (now since : Int) (uaid chid : List Nat) :
    Option Pushgo.Update :=
  match recordAt st uaid chid with
  | some r =>
    if r.S = LIVE ∧ since ≤ r.L then
      some { ChannelID := hexStr chid,
             Version := if r.V = 0 then toUint64 now else r.V }
    else none
  | none => none

/-- Specification-side selector: the expired entry that `FetchAll` owes for
one channel ID, if any. -/
def expOf (st : MCState) (since : Int) (uaid chid : List Nat) :
    Option (List Nat) :=
  match recordAt st uaid chid with
  | some r => if r.S = DELETED ∧ since ≤ r.L then some chid else none
  | none => none

/-- A store holding a device array with a duplicated channel ID for the
device `[2]` (legacy data that the paring loop is meant to clean up). -/
def dupState : MCState := [(encodeKey [2], .idArray [[1], [1]])]

/-- A store holding a `REGISTERED` record for the device `[1]` and channel
`[2]`. -/
def preRegState : MCState :=
  [(encodeKey (toBinaryKey [1] [2]), .record { S := REGISTERED, V := 5, L := 0 })]

/-- A store where device `[1]` subscribes to channel `[2]` whose record is
`DELETED` with `lastTouched = 5`. -/
def oldDeletedState : MCState :=
  [(encodeKey [1], .idArray [[2]]),
   (encodeKey (toBinaryKey [1] [2]), .record { S := DELETED, V := 0, L := 5 })]

/-- A store where device `[1]` subscribes to channels `[2]` (a `LIVE` record,
version 9, touched at 50) and `[3]` (a `DELETED` record touched at 50). -/
def mixedState : MCState :=
  [(encodeKey [1], .idArray [[2], [3]]),
   (encodeKey (toBinaryKey [1] [2]), .record { S := LIVE, V := 9, L := 50 }),
   (encodeKey (toBinaryKey [1] [3]), .record { S := DELETED, V := 0, L := 50 })]

/-- A store where device `[7]` subscribes to channel `[3]` only. -/
def oneChannelState : MCState := [(encodeKey [7], .idArray [[3]])]

/-! ### General lemmas about the embedding -/

theorem mcGet_mcSet_self (st : MCState) (key : String) (v : MCValue) :
    mcGet (mcSet st key v) key = some v := by
  simp [mcGet, mcSet, List.find?]

theorem mcGet_mcSet_ne (st : MCState) (key key2 : String) (v : MCValue)
    (h : key2 ≠ key) : mcGet (mcSet st key v) key2 = mcGet st key2 := by
  have hb : (key == key2) = false := beq_eq_false_iff_ne.mpr (Ne.symm h)
  simp [mcGet, mcSet, List.find?, hb]

theorem goCopy_length (dst : List Nat) (off : Nat) (src : List Nat)
    (h : off ≤ dst.length) : (goCopy dst off src).length = dst.length := by
  simp [goCopy]
  omega

theorem toBinaryKey_length (uaid chid : List Nat) :
    (toBinaryKey uaid chid).length = 32 := by
  unfold toBinaryKey goCopy
  simp
  omega

theorem toBinaryKey_isEmpty (uaid chid : List Nat) :
    (toBinaryKey uaid chid).isEmpty = false := by
  have h := toBinaryKey_length uaid chid
  cases hk : toBinaryKey uaid chid with
  | nil => rw [hk] at h; simp at h
  | cons a l => simp

theorem b64Encode_length : ∀ l : List Nat,
    (b64Encode l).length = (l.length + 2) / 3 * 4
  | [] => by simp [b64Encode]
  | [a] => by simp [b64Encode]
  | [a, b] => by simp [b64Encode]
  | a :: b :: c :: rest => by
    simp [b64Encode, b64Encode_length rest]
    omega

theorem encodeKey_ne_of_short (u k : List Nat) (hu : u.length ≤ 16)
    (hk : k.length = 32) : encodeKey u ≠ encodeKey k := by
  intro h
  have hd : b64Encode u = b64Encode k := by
    have h2 := congrArg String.data h
    simpa [encodeKey] using h2
  have hlen := congrArg List.length hd
  rw [b64Encode_length, b64Encode_length, hk] at hlen
  omega

theorem IndexOf_eq_none_iff (l : ia) (v : List Nat) :
    IndexOf l v = none ↔ v ∉ l := by
  simp [IndexOf, List.findIdx?_eq_none_iff]
  constructor
  · intro h hv
    exact h v hv rfl
  · intro h x hx e
    subst e
    exact h hx

theorem IndexOf_decomp (l : ia) (v : List Nat) (pos : Nat)
    (h : IndexOf l v = some pos) :
    pos < l.length ∧ l = l.take pos ++ v :: l.drop (pos + 1) := by
  rw [IndexOf, List.findIdx?_eq_some_iff_getElem] at h
  obtain ⟨hlt, hp, hrest⟩ := h
  refine ⟨hlt, ?_⟩
  have hv : l[pos] = v := by simpa using hp
  conv_lhs => rw [← List.take_append_drop pos l]
  rw [List.drop_eq_getElem_cons hlt, hv]

theorem insertSorted_perm (x : List Nat) : ∀ l : ia, (insertSorted x l).Perm (x :: l)
  | [] => List.Perm.refl _
  | y :: ys => by
    rw [insertSorted]
    split
    · exact List.Perm.refl _
    · exact ((insertSorted_perm x ys).cons y).trans (List.Perm.swap x y ys)

theorem sortIa_perm : ∀ arr : ia, (sortIa arr).Perm arr
  | [] => List.Perm.refl _
  | x :: xs => (insertSorted_perm x (sortIa xs)).trans ((sortIa_perm xs).cons x)

theorem mem_sortIa (arr : ia) (x : List Nat) : x ∈ sortIa arr ↔ x ∈ arr :=
  (sortIa_perm arr).mem_iff

/-! ### Claim theorems -/

/-- C2 (code bug): with no DeviceSet key stored for the device ID `[1]`
(empty store, so the lookup yields the missing-key error), `Exists` returns
`true`, while the claim and the spec require `false`.  This matches the
source TODO comment in `fetchAppIDArray`. -/
theorem exists_true_on_missing_deviceset :
    EmceeStore.Exists ([] : MCState) [1] = .ok true := by decide

/-- C5 (code bug): reading back a stored DeviceSet that contains a duplicate
channel ID does not return a de-duplicated list: the paring loop of
`fetchAppIDArray` panics (out-of-range slice expression) on the first list
with an actual duplicate, because `remove` shrinks the slice it is ranging
over and the loop keeps using the original length. -/
theorem dedup_read_panics :
    EmceeStore.fetchAppIDArray dupState [2] = .panicked ∧
    pareDuplicates [[1], [1]] = .error () := ⟨by decide, rfl⟩

/-- C7 counterexample: `toBinaryKey` is not injective on pairs of byte
strings of length at most 16: a zero byte prefix is absorbed by the
right-aligned zero padding, so `([5], [1])` and `([0, 5], [1])` are distinct
in-domain pairs with the same primary key. -/
theorem tobinarykey_collision :
    toBinaryKey [5] [1] = toBinaryKey [0, 5] [1] ∧
    (([5] : List Nat), ([1] : List Nat)) ≠ (([0, 5] : List Nat), ([1] : List Nat)) ∧
    ([5] : List Nat).length ≤ 16 ∧ ([0, 5] : List Nat).length ≤ 16 ∧
    ([1] : List Nat).length ≤ 16 := by decide

theorem toBinaryKey_eq_append (uaid chid : List Nat)
    (hu : uaid.length = 16) (hc : chid.length = 16) :
    toBinaryKey uaid chid = uaid ++ chid := by
  unfold toBinaryKey goCopy
  rw [hu, hc]
  norm_num
  rw [List.take_of_length_le (by omega : uaid.length ≤ 32), hu]
  rw [List.take_left' hu]
  rw [(by norm_num : 32 ⊓ 16 = 16)]
  rw [List.take_of_length_le (le_of_eq hc)]
  rw [List.drop_eq_nil_of_le (by simp [hu])]
  simp

/-- C7 (amended): `toBinaryKey` is injective on pairs whose components are
exactly 16 bytes long (the 128-bit UAID and CHID of the data model). -/
theorem tobinarykey_injective_on_full_ids (u1 c1 u2 c2 : List Nat)
    (hu1 : u1.length = 16) (hc1 : c1.length = 16)
    (hu2 : u2.length = 16) (hc2 : c2.length = 16)
    (hne : (u1, c1) ≠ (u2, c2)) :
    toBinaryKey u1 c1 ≠ toBinaryKey u2 c2 := by
  rw [toBinaryKey_eq_append u1 c1 hu1 hc1, toBinaryKey_eq_append u2 c2 hu2 hc2]
  intro h
  obtain ⟨h1, h2⟩ := List.append_inj h (by rw [hu1, hu2])
  exact hne (by rw [h1, h2])

/-- C7 witness: two distinct pairs of 16-byte identifiers receive distinct
primary keys. -/
theorem tobinarykey_injective_on_full_ids_witness :
    toBinaryKey (List.replicate 16 1) (List.replicate 16 2)
      ≠ toBinaryKey (List.replicate 16 3) (List.replicate 16 2) :=
  tobinarykey_injective_on_full_ids _ _ _ _ (by decide) (by decide) (by decide)
    (by decide) (by decide)

theorem splitN2_append (u c : List Char) (hdot : ('.' : Char) ∉ u) :
    splitN2 (u ++ '.' :: c) = [u, c] := by
  have hnone : u.findIdx? (fun ch => ch == '.') = none := by
    rw [List.findIdx?_eq_none_iff]
    intro x hx
    simp only [beq_eq_false_iff_ne, ne_eq]
    intro e
    subst e
    exact hdot hx
  have hidx : (u ++ '.' :: c).findIdx? (fun ch => ch == '.') = some u.length := by
    rw [List.findIdx?_append, hnone, List.findIdx?_cons]
    simp
  rw [splitN2, hidx]
  dsimp only
  rw [List.take_left' rfl, List.append_cons, List.drop_left' (by simp)]

/-- C8 counterexample: the encode-decode round trip is not the identity for
every pair of non-empty strings: with `u = "a.b"` and `c = "c"` the key
decodes at the first dot, yielding `("a", "b.c")`. -/
theorem idstokey_roundtrip_fails_on_dot :
    EmceeStore.IDsToKey "a.b".toList "c".toList = some "a.b.c".toList ∧
    EmceeStore.KeyToIDs "a.b.c".toList = some ("a".toList, "b.c".toList) ∧
    ("a".toList, "b.c".toList) ≠ ("a.b".toList, "c".toList) := by decide

/-- C8 (amended): for every pair of non-empty strings whose first component
contains no dot, `IDsToKey` succeeds and `KeyToIDs` recovers exactly the
pair.  (The second component may contain dots: only the first dot of the key
splits.) -/
theorem idstokey_keytoids_roundtrip (u c : List Char)
    (hu : u ≠ []) (hc : c ≠ []) (hdot : ('.' : Char) ∉ u) :
    EmceeStore.IDsToKey u c = some (u ++ '.' :: c) ∧
    EmceeStore.KeyToIDs (u ++ '.' :: c) = some (u, c) := by
  constructor
  · have h1 : 0 < u.length := List.length_pos.mpr hu
    have h2 : 0 < c.length := List.length_pos.mpr hc
    simp [EmceeStore.IDsToKey, h1, h2]
  · rw [EmceeStore.KeyToIDs, splitN2_append u c hdot]

/-- C8 witness: the round trip at `u = "a"`, `c = "b"`. -/
theorem idstokey_keytoids_roundtrip_witness :
    EmceeStore.IDsToKey ['a'] ['b'] = some ['a', '.', 'b'] ∧
    EmceeStore.KeyToIDs ['a', '.', 'b'] = some (['a'], ['b']) :=
  idstokey_keytoids_roundtrip ['a'] ['b'] (by decide) (by decide) (by decide)

/-- C9 counterexample: with `MaxConns = 1` and one admitted connection
(`capacity = 1`, necessarily the one being returned), the run loop closes a
released connection even though re-queuing it would leave the total
connection count at `1`, which does not exceed `MaxConns`. -/
theorem pool_release_closes_at_boundary :
    poolStep 1 { clients := [], capacity := 1 } (.release 7)
      = ({ clients := [], capacity := 1 }, .closedConn 7) ∧
    ({ clients := [], capacity := 1 } : PoolState).capacity ≤ 1 := by decide

/-- C9 (amended): in the run loop, a released connection is closed instead
of re-queued exactly when the total connection count has reached or exceeded
`MaxConns`; in every other case it is appended to the idle list. -/
theorem pool_release_close_iff (maxConns : Nat) (st : PoolState) (c : Nat) :
    ((poolStep maxConns st (.release c)).2 = .closedConn c ↔ maxConns ≤ st.capacity) ∧
    (st.capacity < maxConns →
      poolStep maxConns st (.release c)
        = ({ st with clients := st.clients ++ [c] }, .queued c)) := by
  unfold poolStep
  by_cases h : maxConns ≤ st.capacity <;> simp [h]

/-- C9 witness: a release below capacity is re-queued at the back of the
idle list. -/
theorem pool_release_close_iff_witness :
    poolStep 2 { clients := [], capacity := 1 } (.release 9)
      = ({ clients := [9], capacity := 1 }, .queued 9) :=
  (pool_release_close_iff 2 { clients := [], capacity := 1 } 9).2 (by decide)

/-- C10 (confirmed): the absence discriminator, applied to an error with
message `msg`, returns true exactly when `msg` is a contiguous substring of
the literal "NOT FOUND"; in particular it accepts the empty message and
rejects every message longer than "NOT FOUND" (including messages that
contain "NOT FOUND" alongside other text). -/
theorem ismissing_matches_substring (msg : List Char) :
    (isMissingMsg msg = true ↔ msg <:+: notFoundMsg) ∧
    (msg = [] → isMissingMsg msg = true) ∧
    (notFoundMsg.length < msg.length → isMissingMsg msg = false) := by
  refine ⟨?_, ?_, ?_⟩
  · simp [isMissingMsg, goContains]
  · rintro rfl
    simp [isMissingMsg, goContains]
  · intro h
    simp only [isMissingMsg, goContains, decide_eq_false_iff_not]
    intro hinf
    exact absurd hinf.length_le (by omega)

/-- C10 witness: the empty message is treated as missing; a message that
contains "NOT FOUND" alongside other text is not. -/
theorem ismissing_matches_substring_witness :
    isMissingMsg [] = true ∧ isMissingMsg "NOT FOUND plus detail".toList = false :=
  ⟨(ismissing_matches_substring []).2.1 rfl,
   (ismissing_matches_substring "NOT FOUND plus detail".toList).2.2 (by decide)⟩

/-- C1 (confirmed): for non-empty `uaid` and `chid`, `Update` loads the
record stored at the primary key; when no value is stored there, or the
stored record has state `DELETED`, the call is exactly `Register` (result
and final store contents); when the stored record has any other state the
call overwrites it with state `LIVE`, the `uint64` image of the given
version, and the current time as `lastTouched`, and succeeds. -/
theorem update_follows_register_or_overwrites (st : MCState) (now : Int)
    (uaid chid : List Nat) (version : Int) (hu : uaid ≠ []) (hc : chid ≠ []) :
    (mcGet st (encodeKey (toBinaryKey uaid chid)) = none →
       EmceeStore.Update st now uaid chid version
         = EmceeStore.Register st now uaid chid version) ∧
    (∀ r, mcGet st (encodeKey (toBinaryKey uaid chid)) = some (.record r) →
       r.S = DELETED →
       EmceeStore.Update st now uaid chid version
         = EmceeStore.Register st now uaid chid version) ∧
    (∀ r, mcGet st (encodeKey (toBinaryKey uaid chid)) = some (.record r) →
       r.S ≠ DELETED →
       EmceeStore.Update st now uaid chid version
         = (.ok (), mcSet st (encodeKey (toBinaryKey uaid chid))
             (.record { S := LIVE, V := toUint64 version, L := now }))) := by
  have hue : uaid.isEmpty = false := by simpa using hu
  have hce : chid.isEmpty = false := by simpa using hc
  have hpk := toBinaryKey_isEmpty uaid chid
  have him : isMissing .mcMissing = true := rfl
  refine ⟨?_, ?_, ?_⟩
  · intro hget
    simp [EmceeStore.Update, EmceeStore.fetchRec, clientGetRec, hue, hce, hpk,
      hget, him, DELETED]
  · intro r hget hdel
    simp [EmceeStore.Update, EmceeStore.fetchRec, clientGetRec, hue, hce, hpk,
      hget, hdel, DELETED]
  · intro r hget hdel
    simp [EmceeStore.Update, EmceeStore.fetchRec, EmceeStore.storeRec,
      clientGetRec, hue, hce, hpk, hget, hdel, DELETED]
    exact fun h0 => absurd h0 (by simpa [DELETED] using hdel)

/-- C1 witness: on an empty store (no record at the primary key), `Update`
for device `[1]`, channel `[2]`, version 7 is exactly `Register`. -/
theorem update_follows_register_or_overwrites_witness :
    EmceeStore.Update ([] : MCState) 0 [1] [2] 7
      = EmceeStore.Register ([] : MCState) 0 [1] [2] 7 :=
  (update_follows_register_or_overwrites [] 0 [1] [2] 7 (by decide) (by decide)).1 rfl

theorem toUint64_pos (v : Int) (hv : Int64Range v) (hne : v ≠ 0) :
    0 < toUint64 v := by
  obtain ⟨h1, h2⟩ := hv
  have e63 : (2 : Int) ^ 63 = 9223372036854775808 := by norm_num
  have e64 : (2 : Int) ^ 64 = 18446744073709551616 := by norm_num
  unfold toUint64
  rw [e64]
  rw [e63] at h1 h2
  omega

theorem register_stores_rec (st : MCState) (now : Int) (uaid chid : List Nat)
    (version : Int) (st1 : MCState)
    (h : EmceeStore.Register st now uaid chid version = (.ok (), st1)) :
    mcGet st1 (encodeKey (toBinaryKey uaid chid))
      = some (.record (if version = 0 then { S := REGISTERED, V := 0, L := now }
          else { S := LIVE, V := toUint64 version, L := now })) := by
  rw [EmceeStore.Register] at h
  split at h
  · simp at h
  · split at h
    · simp at h
    · simp at h
    · split at h
      · simp at h
      · split at h <;>
          simp only [EmceeStore.storeRec, toBinaryKey_isEmpty] at h <;>
          simp at h <;>
          rw [← h, mcGet_mcSet_self] <;>
          simp [*]

theorem register_live_positive (st : MCState) (now : Int) (uaid chid : List Nat)
    (version : Int) (hv : Int64Range version) (st1 : MCState)
    (h : EmceeStore.Register st now uaid chid version = (.ok (), st1)) :
    liveVersionPositive st1 (encodeKey (toBinaryKey uaid chid)) := by
  intro r hr hlive
  rw [register_stores_rec st now uaid chid version st1 h] at hr
  by_cases h0 : version = 0
  · simp [h0] at hr
    rw [← hr] at hlive
    simp [REGISTERED, LIVE] at hlive
  · simp [h0] at hr
    rw [← hr]
    exact toUint64_pos version hv h0

/-- C3 counterexample: with a `REGISTERED` record already stored, `Update`
with version input 0 completes and stores a record with state `LIVE` and
version 0, violating the claimed invariant version > 0. -/
theorem update_zero_version_stores_live_zero :
    EmceeStore.Update preRegState 0 [1] [2] 0
      = (.ok (), mcSet preRegState (encodeKey (toBinaryKey [1] [2]))
          (.record { S := LIVE, V := 0, L := 0 })) ∧
    mcGet (EmceeStore.Update preRegState 0 [1] [2] 0).2
        (encodeKey (toBinaryKey [1] [2]))
      = some (.record { S := LIVE, V := 0, L := 0 }) ∧
    ¬ 0 < (0 : Nat) := ⟨by decide, by decide, by decide⟩

/-- C3 (amended): for an `int64` version input, any completed `Register`
stores a `LIVE` record only with version > 0; and any completed `Update`
whose version input is nonzero also stores a `LIVE` record only with
version > 0.  (An `Update` whose version input is 0 on a non-`DELETED`
record is exactly the counterexample.) -/
theorem register_update_live_positive (st : MCState) (now : Int)
    (uaid chid : List Nat) (version : Int) (hv : Int64Range version) :
    (∀ st1, EmceeStore.Register st now uaid chid version = (.ok (), st1) →
       liveVersionPositive st1 (encodeKey (toBinaryKey uaid chid))) ∧
    (version ≠ 0 → ∀ st1, EmceeStore.Update st now uaid chid version = (.ok (), st1) →
       liveVersionPositive st1 (encodeKey (toBinaryKey uaid chid))) := by
  constructor
  · exact fun st1 h => register_live_positive st now uaid chid version hv st1 h
  · intro hvne st1 h
    rw [EmceeStore.Update] at h
    split at h
    · simp at h
    · dsimp only at h
      split at h
      · split at h
        · exact register_live_positive st now uaid chid version hv st1 h
        · simp at h
      · split at h
        · simp only [EmceeStore.storeRec, toBinaryKey_isEmpty] at h
          simp at h
          intro r hr hlive
          rw [← h, mcGet_mcSet_self] at hr
          simp at hr
          rw [← hr]
          exact toUint64_pos version hv hvne
        · exact register_live_positive st now uaid chid version hv st1 h

/-- C3 witness: registering channel `[2]` with version 5 on an empty store
yields a state satisfying the invariant at the primary key. -/
theorem register_update_live_positive_witness :
    liveVersionPositive (EmceeStore.Register ([] : MCState) 0 [1] [2] 5).2
      (encodeKey (toBinaryKey [1] [2])) :=
  (register_update_live_positive ([] : MCState) 0 [1] [2] 5
      (by show -(2 ^ 63) ≤ (5 : Int) ∧ (5 : Int) < 2 ^ 63; norm_num)).1
    (EmceeStore.Register ([] : MCState) 0 [1] [2] 5).2 (by decide)

theorem fetchAllStep_eq (st : MCState) (now since : Int) (uaid chid : List Nat)
    (acc : List Pushgo.Update × ia) :
    fetchAllStep st now since uaid acc chid
      = (acc.1 ++ (updOf st now since uaid chid).toList,
         acc.2 ++ (expOf st since uaid chid).toList) := by
  unfold fetchAllStep updOf expOf recordAt clientGetRec
  cases hg : mcGet st (encodeKey (toBinaryKey uaid chid)) with
  | none => simp
  | some v =>
    cases v with
    | record r =>
      dsimp only
      by_cases hL : r.L < since
      · have hns : ¬ since ≤ r.L := by omega
        simp [hL, hns]
      · have hsince : since ≤ r.L := by omega
        by_cases hS1 : r.S = LIVE
        · have hS0 : ¬ r.S = DELETED := by simp [LIVE] at hS1; simp [DELETED]; omega
          simp [hL, hS1, hS0, hsince, LIVE, DELETED]
        · by_cases hS0 : r.S = DELETED
          · simp [hL, hS1, hS0, hsince, LIVE, DELETED]
          · simp [hL, hS1, hS0, hsince]
    | idArray a => simp
    | str s2 => simp

theorem fetchAll_foldl (st : MCState) (now since : Int) (uaid : List Nat) :
    ∀ (chids : ia) (acc : List Pushgo.Update × ia),
      chids.foldl (fetchAllStep st now since uaid) acc
        = (acc.1 ++ chids.filterMap (updOf st now since uaid),
           acc.2 ++ chids.filterMap (expOf st since uaid))
  | [], acc => by simp
  | chid :: rest, acc => by
    rw [List.foldl_cons, fetchAllStep_eq, fetchAll_foldl st now since uaid rest]
    cases h1 : updOf st now since uaid chid <;> cases h2 : expOf st since uaid chid <;>
      simp [h1, h2]

theorem updOf_eq_some_iff (st : MCState) (now since : Int) (uaid chid : List Nat)
    (u : Pushgo.Update) :
    updOf st now since uaid chid = some u ↔
      ∃ r, recordAt st uaid chid = some r ∧ r.S = LIVE ∧ since ≤ r.L ∧
        u = { ChannelID := hexStr chid,
              Version := if r.V = 0 then toUint64 now else r.V } := by
  unfold updOf
  cases hra : recordAt st uaid chid with
  | none => simp
  | some r =>
    dsimp only
    by_cases hcond : r.S = LIVE ∧ since ≤ r.L
    · simp [hcond, eq_comm]
    · rw [if_neg hcond]
      constructor
      · intro h
        exact absurd h (by simp)
      · rintro ⟨r2, hr2, hLive, hLe, hu⟩
        injection hr2 with hr2e
        subst hr2e
        exact absurd ⟨hLive, hLe⟩ hcond

theorem expOf_eq_some_iff (st : MCState) (since : Int) (uaid c : List Nat)
    (x : List Nat) :
    expOf st since uaid c = some x ↔
      (x = c ∧ ∃ r, recordAt st uaid c = some r ∧ r.S = DELETED ∧ since ≤ r.L) := by
  unfold expOf
  cases hra : recordAt st uaid c with
  | none => simp
  | some r =>
    dsimp only
    by_cases hcond : r.S = DELETED ∧ since ≤ r.L
    · simp [hcond, eq_comm]
    · rw [if_neg hcond]
      constructor
      · intro h
        exact absurd h (by simp)
      · rintro ⟨hx, r2, hr2, hDel, hLe⟩
        injection hr2 with hr2e
        subst hr2e
        exact absurd ⟨hDel, hLe⟩ hcond

/-- C4 counterexample: a stored `DELETED` record whose `lastTouched` (5) is
below the cutoff `since` (10) is skipped by the shared `lastTouched`
filter, so `FetchAll` returns it in neither `updates` nor `expired`, while
the claim requires every stored `DELETED` channel ID in `expired`. -/
theorem fetchall_misses_old_deleted :
    EmceeStore.FetchAll oldDeletedState 100 [1] 10 = .ok ([], []) ∧
    recordAt oldDeletedState [1] [2] = some { S := DELETED, V := 0, L := 5 } ∧
    EmceeStore.fetchAppIDArray oldDeletedState [1] = .ok [[2]] := by decide

/-- C4 (amended): when the device array loads as `chids`, `FetchAll` returns
as updates exactly the hex channel IDs and versions of the stored `LIVE`
records with `lastTouched ≥ since` (a stored version 0 replaced by the
synthetic `uint64(now)`), and as expired exactly the channel IDs of the
stored `DELETED` records with `lastTouched ≥ since`. -/
theorem fetchall_updates_and_expired (st : MCState) (now since : Int)
    (uaid : List Nat) (chids : ia) (updates : List Pushgo.Update) (expired : ia)
    (hfa : EmceeStore.fetchAppIDArray st uaid = .ok chids)
    (hall : EmceeStore.FetchAll st now uaid since = .ok (updates, expired)) :
    (∀ u, u ∈ updates ↔ ∃ chid ∈ chids, ∃ r, recordAt st uaid chid = some r ∧
        r.S = LIVE ∧ since ≤ r.L ∧
        u = { ChannelID := hexStr chid,
              Version := if r.V = 0 then toUint64 now else r.V }) ∧
    (∀ c, c ∈ expired ↔ c ∈ chids ∧ ∃ r, recordAt st uaid c = some r ∧
        r.S = DELETED ∧ since ≤ r.L) := by
  rw [EmceeStore.FetchAll, hfa] at hall
  dsimp only at hall
  rw [fetchAll_foldl] at hall
  simp only [List.nil_append, GoRes.ok.injEq, Prod.mk.injEq] at hall
  obtain ⟨hupd, hexp⟩ := hall
  subst hupd
  subst hexp
  constructor
  · intro u
    rw [List.mem_filterMap]
    constructor
    · rintro ⟨chid, hchid, hsome⟩
      rw [updOf_eq_some_iff] at hsome
      obtain ⟨r, h1, h2, h3, h4⟩ := hsome
      exact ⟨chid, hchid, r, h1, h2, h3, h4⟩
    · rintro ⟨chid, hchid, r, h1, h2, h3, h4⟩
      exact ⟨chid, hchid, (updOf_eq_some_iff st now since uaid chid u).mpr
        ⟨r, h1, h2, h3, h4⟩⟩
  · intro c
    rw [List.mem_filterMap]
    constructor
    · rintro ⟨chid, hchid, hsome⟩
      rw [expOf_eq_some_iff] at hsome
      obtain ⟨hxc, r, h1, h2, h3⟩ := hsome
      subst hxc
      exact ⟨hchid, r, h1, h2, h3⟩
    · rintro ⟨hc, r, h1, h2, h3⟩
      exact ⟨c, hc, (expOf_eq_some_iff st since uaid c c).mpr ⟨rfl, r, h1, h2, h3⟩⟩

/-- C4 witness: on `mixedState` (one `LIVE` record with version 9 and one
`DELETED` record, both touched at 50, cutoff 10), the characterisation
certifies the update for channel `[2]` and the expired entry `[3]`. -/
theorem fetchall_updates_and_expired_witness :
    ({ ChannelID := hexStr [2], Version := 9 } : Pushgo.Update)
      ∈ [({ ChannelID := hexStr [2], Version := 9 } : Pushgo.Update)] ∧
    ([3] : List Nat) ∈ ([[3]] : ia) :=
  have h := fetchall_updates_and_expired mixedState 100 10 [1] [[2], [3]]
    [{ ChannelID := hexStr [2], Version := 9 }] [[3]]
    (by decide) (by decide)
  ⟨(h.1 { ChannelID := hexStr [2], Version := 9 }).mpr
      ⟨[2], by decide, { S := LIVE, V := 9, L := 50 }, by decide, rfl, by decide, by decide⟩,
   (h.2 [3]).mpr ⟨by decide, { S := DELETED, V := 0, L := 50 }, by decide, rfl, by decide⟩⟩

theorem unregLoop_mcGet_ne (now : Int) (key : List Nat) (ff : Nat → Bool)
    (k : String) (hk : k ≠ encodeKey key) :
    ∀ (x fuel : Nat) (st : MCState),
      mcGet (EmceeStore.unregLoop now key ff x fuel st).1 k = mcGet st k
  | x, 0, st => rfl
  | x, fuel + 1, st => by
    rw [EmceeStore.unregLoop]
    cases hf : (if ff x then Except.error SPError.netFail else EmceeStore.fetchRec st key) with
    | error e => exact unregLoop_mcGet_ne now key ff k hk (x + 1) fuel st
    | ok channel =>
      dsimp only
      rw [EmceeStore.storeRec]
      by_cases hpk : key.isEmpty
      · simp [hpk]
      · simp only [hpk, Bool.false_eq_true, if_false]
        exact mcGet_mcSet_ne _ _ _ _ hk

theorem unregLoop_attempts (now : Int) (key : List Nat) (ff : Nat → Bool) :
    ∀ (x fuel : Nat) (st : MCState), x + fuel = 3 →
      (EmceeStore.unregLoop now key ff x fuel st).2 ≤ 3
  | x, 0, st, h => by rw [EmceeStore.unregLoop]
  | x, fuel + 1, st, h => by
    rw [EmceeStore.unregLoop]
    cases hf : (if ff x then Except.error SPError.netFail else EmceeStore.fetchRec st key) with
    | error e => exact unregLoop_attempts now key ff (x + 1) fuel st (by omega)
    | ok channel =>
      dsimp only
      omega

/-- C6 (confirmed): with the device array of a (at most 16-byte) device ID
loading as the duplicate-free list `chids`, `Unregister` returns
`InvalidChannelError` exactly when `chid` is not in `chids`; when `chid` is
present it returns nil for every failure schedule of the retry loop
(including all three mark attempts failing), runs the record-marking loop at
most 3 times, and rewrites the stored device array to one that drops `chid`
and keeps every other channel ID. -/
theorem unregister_contract (st : MCState) (now : Int) (uaid chid : List Nat)
    (ff : Nat → Bool) (chids : ia) (hu16 : uaid.length ≤ 16)
    (hfa : EmceeStore.fetchAppIDArray st uaid = .ok chids) (hnd : chids.Nodup) :
    ((EmceeStore.Unregister st now uaid chid ff).1 = .err .invalidChannel ↔ chid ∉ chids) ∧
    (chid ∈ chids →
      (EmceeStore.Unregister st now uaid chid ff).1 = .ok () ∧
      (EmceeStore.Unregister st now uaid chid ff).2.2 ≤ 3 ∧
      ∃ l, mcGet (EmceeStore.Unregister st now uaid chid ff).2.1 (encodeKey uaid)
          = some (.idArray l) ∧
        chid ∉ l ∧ ∀ c, c ≠ chid → (c ∈ l ↔ c ∈ chids)) := by
  cases hidx : IndexOf chids chid with
  | none =>
    have hnotin : chid ∉ chids := (IndexOf_eq_none_iff chids chid).mp hidx
    have hU : EmceeStore.Unregister st now uaid chid ff = (.err .invalidChannel, st, 0) := by
      rw [EmceeStore.Unregister, hfa]
      dsimp only
      rw [hidx]
    rw [hU]
    exact ⟨by simpa using hnotin, fun hin => absurd hin hnotin⟩
  | some pos =>
    obtain ⟨hlt, hdecomp⟩ := IndexOf_decomp chids chid pos hidx
    have hin : chid ∈ chids := by
      rw [hdecomp]
      exact List.mem_append_right _ (List.mem_cons_self _ _)
    have hune : uaid.isEmpty = false := by
      cases hu : uaid.isEmpty with
      | false => rfl
      | true =>
        rw [EmceeStore.fetchAppIDArray, hu] at hfa
        simp at hfa
        rw [hfa] at hin
        simp at hin
    have hkeyne : encodeKey uaid ≠ encodeKey (toBinaryKey uaid chid) :=
      encodeKey_ne_of_short uaid _ hu16 (toBinaryKey_length uaid chid)
    set st1 := mcSet st (encodeKey uaid) (.idArray (sortIa (remove chids pos))) with hst1
    have hU : EmceeStore.Unregister st now uaid chid ff
        = (.ok (),
           (EmceeStore.unregLoop now (toBinaryKey uaid chid) ff 0 3 st1).1,
           (EmceeStore.unregLoop now (toBinaryKey uaid chid) ff 0 3 st1).2) := by
      rw [EmceeStore.Unregister, hfa]
      dsimp only
      rw [hidx]
      simp only [EmceeStore.storeAppIDArray, hune, Bool.false_eq_true, if_false]
    rw [hU]
    constructor
    · simp [hin]
    · intro _
      refine ⟨rfl, unregLoop_attempts now _ ff 0 3 st1 rfl, ?_⟩
      refine ⟨sortIa (remove chids pos), ?_, ?_, ?_⟩
      · rw [unregLoop_mcGet_ne now _ ff _ hkeyne, hst1, mcGet_mcSet_self]
      · rw [mem_sortIa, remove, if_neg (by omega)]
        intro hmem
        have hnd2 : (chids.take pos ++ chid :: chids.drop (pos + 1)).Nodup := by
          rw [← hdecomp]; exact hnd
        rw [List.nodup_append] at hnd2
        obtain ⟨hA, hB2, hdisj⟩ := hnd2
        rcases List.mem_append.mp hmem with hA2 | hB3
        · exact hdisj hA2 (List.mem_cons_self _ _)
        · exact (List.nodup_cons.mp hB2).1 hB3
      · intro c hc
        rw [mem_sortIa, remove, if_neg (by omega)]
        conv_rhs => rw [hdecomp]
        rw [List.mem_append, List.mem_append, List.mem_cons]
        constructor
        · rintro (h1 | h2)
          · exact Or.inl h1
          · exact Or.inr (Or.inr h2)
        · rintro (h1 | h2 | h3)
          · exact Or.inl h1
          · exact absurd h2 hc
          · exact Or.inr h3

/-- C6 witness: on `oneChannelState`, unregistering channel `[3]` of device
`[7]` succeeds within 3 attempts even when every mark attempt fails, while
unregistering the absent channel `[9]` is an `InvalidChannelError`. -/
theorem unregister_contract_witness :
    (EmceeStore.Unregister oneChannelState 0 [7] [3] (fun _ => true)).1 = .ok () ∧
    (EmceeStore.Unregister oneChannelState 0 [7] [3] (fun _ => true)).2.2 ≤ 3 ∧
    (EmceeStore.Unregister oneChannelState 0 [7] [9] (fun _ => true)).1
      = .err .invalidChannel :=
  have h3 := unregister_contract oneChannelState 0 [7] [3] (fun _ => true) [[3]]
    (by decide) (by decide) (by decide)
  have h9 := unregister_contract oneChannelState 0 [7] [9] (fun _ => true) [[3]]
    (by decide) (by decide) (by decide)
  ⟨(h3.2 (by decide)).1, (h3.2 (by decide)).2.1, h9.1.mpr (by decide)⟩

end Pushgo
